import Mathlib

/-!
Shallow embedding of the WASI process/thread control plane of
`src/lib/wasi/src/state/thread.rs` (idena-network/wasmer).

Conventions of the embedding:
* byte slices (`&[u8]`, `Vec<u8>`, `Bytes`, `BytesMut`) are `List Nat`;
* the 128-bit snapshot hash, signal kinds, exit codes, thread ids and
  process ids are `Nat`; `u32` arithmetic is done modulo `4294967296`;
* `HashMap`/`HashSet` become association lists / lists of keys, with
  insert-replaces-key semantics realised by cons + first-match lookup
  (and removal of the shadowed key where the map's values are iterated);
* the singly linked `ThreadStack` chain (`next : Option<Box<ThreadStack>>`)
  is flattened to a head node plus the list of its successors;
* mutation through `Arc<Mutex<..>>`/`RwLock` becomes explicit state passing;
  broadcast wake channels and subscriptions carry no data and are `Unit`;
* `async` suspension (`join*`) is modelled at quiescent points: a join that
  the scheduler has resumed reads the exit latch that has been set.
-/

/-- One stored snapshot: `ThreadSnapshot { call_stack, store_data }`. -/
structure ThreadSnapshot where
  call_stack : List Nat
  store_data : List Nat
deriving DecidableEq

/-- One node of the per-thread stack chain, `ThreadStack` without its
`next` pointer; a whole chain is a `ThreadStack × List ThreadStack`
(head node and its successors in order). -/
structure ThreadStack where
  memory_stack : List Nat
  memory_stack_corrected : List Nat
  snapshots : List (Nat × ThreadSnapshot)
deriving DecidableEq

/-- The chain of a freshly created thread: a single `ThreadStack::default()`. -/
def initialChain : ThreadStack × List ThreadStack :=
  ({ memory_stack := [], memory_stack_corrected := [], snapshots := [] }, [])

/-- The validity test of `WasiThread::add_snapshot` (lines 181-196): a segment
is invalidated by the incoming `memory_stack` when the segment's recorded
stack is longer than the incoming one, or when no shared byte position agrees
with either `memory_stack` or `memory_stack_corrected`. -/
def stackInvalid (seg : ThreadStack) (memory_stack : List Nat) : Bool :=
  decide (memory_stack.length < seg.memory_stack.length) ||
    (!((seg.memory_stack.zip memory_stack).any (fun p => p.1 == p.2)) &&
     !((seg.memory_stack_corrected.zip memory_stack).any (fun p => p.1 == p.2)))

/-- The loop of `WasiThread::add_snapshot` (lines 179-244), walking the chain
from `seg` with successors `rest` and the not-yet-consumed part of the
incoming `memory_stack`.  An invalidated segment is swapped in place for a
fresh one seeded by the incoming stacks, dropping all successors; otherwise
the segment's recorded bytes are consumed from the incoming slice, the
snapshot is inserted once the slice is exhausted, and a missing successor is
allocated holding just the remaining bytes (its corrected image is left
empty, exactly as in the source). -/
def addSnapshotLoop (seg : ThreadStack) (rest : List ThreadStack)
    (memory_stack memory_stack_corrected : List Nat) (hash : Nat)
    (rewind_stack store_data : List Nat) : ThreadStack × List ThreadStack :=
  if h1 : stackInvalid seg memory_stack = true then
    ({ memory_stack := memory_stack,
       memory_stack_corrected := memory_stack_corrected,
       snapshots := [(hash, { call_stack := rewind_stack, store_data := store_data })] }, [])
  else
    if h2 : (memory_stack.drop seg.memory_stack.length).isEmpty = true then
      ({ seg with snapshots :=
          (hash, { call_stack := rewind_stack, store_data := store_data }) :: seg.snapshots },
       rest)
    else
      match rest with
      | [] =>
        let out := addSnapshotLoop
          { memory_stack := memory_stack.drop seg.memory_stack.length,
            memory_stack_corrected := [], snapshots := [] } []
          (memory_stack.drop seg.memory_stack.length) memory_stack_corrected hash
          rewind_stack store_data
        (seg, out.1 :: out.2)
      | s :: r =>
        let out := addSnapshotLoop s r (memory_stack.drop seg.memory_stack.length)
          memory_stack_corrected hash rewind_stack store_data
        (seg, out.1 :: out.2)
termination_by 2 * memory_stack.length + rest.length + (1 - seg.memory_stack.length)
decreasing_by
  · have hk : seg.memory_stack.length ≤ memory_stack.length := by
      rcases le_or_lt seg.memory_stack.length memory_stack.length with h | h
      · exact h
      · exact absurd (by unfold stackInvalid; rw [decide_eq_true h]; rfl) h1
    have hne : memory_stack.drop seg.memory_stack.length ≠ [] := by
      intro hh; exact h2 (by rw [hh]; rfl)
    have hpos : 0 < (memory_stack.drop seg.memory_stack.length).length :=
      List.length_pos.mpr hne
    have hd : (memory_stack.drop seg.memory_stack.length).length
        = memory_stack.length - seg.memory_stack.length := by simp
    simp only [List.length_nil, List.length_cons]
    omega
  · have hk : seg.memory_stack.length ≤ memory_stack.length := by
      rcases le_or_lt seg.memory_stack.length memory_stack.length with h | h
      · exact h
      · exact absurd (by unfold stackInvalid; rw [decide_eq_true h]; rfl) h1
    have hd : (memory_stack.drop seg.memory_stack.length).length
        = memory_stack.length - seg.memory_stack.length := by simp
    simp only [List.length_nil, List.length_cons]
    omega

/-- The loop of `WasiThread::get_snapshot` (lines 253-267): walk the chain
head to tail, accumulating `memory_stack_corrected`, and return on the first
segment whose snapshot map holds `hash`. -/
def getSnapshotLoop (acc : List Nat) (seg : ThreadStack) (rest : List ThreadStack)
    (hash : Nat) : Option (List Nat × List Nat × List Nat) :=
  match seg.snapshots.lookup hash with
  | some snap => some (acc ++ seg.memory_stack_corrected, snap.call_stack, snap.store_data)
  | none =>
    match rest with
    | [] => none
    | s :: r => getSnapshotLoop (acc ++ seg.memory_stack_corrected) s r hash

namespace WasiThread

/-- `WasiThread::add_snapshot` on the thread's stack chain. -/
def add_snapshot (chain : ThreadStack × List ThreadStack)
    (memory_stack memory_stack_corrected : List Nat) (hash : Nat)
    (rewind_stack store_data : List Nat) : ThreadStack × List ThreadStack :=
  addSnapshotLoop chain.1 chain.2 memory_stack memory_stack_corrected hash
    rewind_stack store_data

/-- `WasiThread::get_snapshot`. -/
def get_snapshot (chain : ThreadStack × List ThreadStack) (hash : Nat) :
    Option (List Nat × List Nat × List Nat) :=
  getSnapshotLoop [] chain.1 chain.2 hash

/-- `WasiThread::terminate` acting on the exit-latch cell (lines 117-123):
write the code only when the latch is unset (the broadcast carries no data). -/
def terminate (finished : Option Nat) (exit_code : Nat) : Option Nat :=
  match finished with
  | none => some exit_code
  | some c => some c

/-- `WasiThread::try_join` (lines 142-145): non-blocking read of the latch.
`join` returns the same value once the latch has been set and the waiter has
been woken, so this is also the settled value of `join`. -/
def try_join (finished : Option Nat) : Option Nat :=
  finished

/-- `WasiThread::signal` acting on the pending-signal vector (lines 148-154):
push only when absent. -/
def signal (signals : List Nat) (s : Nat) : List Nat :=
  if signals.contains s then signals else signals ++ [s]

/-- `WasiThread::pop_signals_or_subscribe` (lines 157-165): atomically take
the whole pending set; if it was empty return a fresh subscription (`Unit`)
instead.  The pair is (result, pending set afterwards). -/
def pop_signals_or_subscribe (signals : List Nat) :
    Except Unit (List Nat) × List Nat :=
  if signals.isEmpty then (Except.error (), []) else (Except.ok signals, [])

end WasiThread

/-- The per-thread shared cells of a registered `WasiThread`: the `is_main`
flag, the exit latch behind `finished` (meaningful for non-main threads: the
main thread shares the owning process's latch, see `WasiProcess.new_thread`),
and the pending-signal vector. -/
structure WasiThreadState where
  is_main : Bool
  finished : Option Nat
  signals : List Nat
deriving DecidableEq

/-- A `WasiProcess` together with its `WasiProcessInner`: the thread table,
the thread-count tally and thread-id seed, the process exit latch (shared
with the main thread), the children list and the wait-for-children counter.
The TLS maps, interval signals and bus tables are omitted: no claim touches
them. -/
structure WasiProcess where
  threads : List (Nat × WasiThreadState)
  thread_count : Nat
  thread_seed : Nat
  finished : Option Nat
  children : List Nat
  waiting : Nat
deriving DecidableEq

namespace WasiProcess

/-- `WasiProcess::new_thread` (lines 461-489): allocate the next thread id,
flag `is_main` iff the current thread count is zero (in which case the new
thread shares the process latch), register the thread and bump the count.
Returns (new process state, thread id, is_main flag). -/
def new_thread (p : WasiProcess) : WasiProcess × Nat × Bool :=
  let id := p.thread_seed
  let is_main : Bool := decide (p.thread_count ≤ 0)
  let t : WasiThreadState := { is_main := is_main, finished := none, signals := [] }
  ({ p with
      threads := (id, t) :: p.threads.filter (fun q => q.1 != id),
      thread_count := (p.thread_count + 1) % 4294967296,
      thread_seed := (p.thread_seed + 1) % 4294967296 },
   id, is_main)

/-- `Drop for WasiThreadHandle` (lines 299-310), at the moment the last
handle for `id` goes out of scope: remove the thread from the table, call
`terminate(0)` on it when it was registered, and decrement the `u32` thread
count unconditionally (wrapping, as the release-mode `-= 1` does).  For a
main thread `terminate` writes the process latch; for another thread it
writes the thread's own latch, returned as the second component. -/
def dropThreadHandle (p : WasiProcess) (id : Nat) :
    WasiProcess × Option WasiThreadState :=
  match p.threads.lookup id with
  | some t =>
      ({ p with
          threads := p.threads.filter (fun q => q.1 != id),
          finished := if t.is_main then WasiThread.terminate p.finished 0 else p.finished,
          thread_count := (p.thread_count + 4294967295) % 4294967296 },
       some (if t.is_main then t
             else { t with finished := WasiThread.terminate t.finished 0 }))
  | none =>
      ({ p with thread_count := (p.thread_count + 4294967295) % 4294967296 }, none)

/-- `WasiProcess::active_threads` (lines 559-562). -/
def active_threads (p : WasiProcess) : Nat :=
  p.thread_count

/-- `WasiProcess::try_join` (lines 582-585); also the settled value of
`WasiProcess::join` once the latch is set. -/
def try_join (p : WasiProcess) : Option Nat :=
  p.finished

/-- `thread.signal(signal)` applied to one registered thread's state. -/
def signalThread (t : WasiThreadState) (s : Nat) : WasiThreadState :=
  { t with signals := WasiThread.signal t.signals s }

/-- The thread fan-out of `WasiProcess::signal_process` (lines 523-526):
deliver `s` to every registered thread. -/
def signalAllThreads (p : WasiProcess) (s : Nat) : WasiProcess :=
  { p with threads := p.threads.map (fun q => (q.1, signalThread q.2 s)) }

/-- `WasiProcess::signal_process` (lines 513-527) acting on the control
plane's process map.  When the wait-for-children counter is positive the
signal is re-dispatched to every live child (looked up in the map);
otherwise it is delivered to every registered thread of the process.  `fuel`
bounds the recursion depth through the child tree. -/
def signal_process : Nat → List (Nat × WasiProcess) → Nat → Nat →
    List (Nat × WasiProcess)
  | 0, processes, _, _ => processes
  | Nat.succ fuel, processes, pid, sig =>
    match processes.lookup pid with
    | none => processes
    | some p =>
      if 0 < p.waiting then
        p.children.foldl (fun acc c => signal_process fuel acc c sig) processes
      else
        processes.map (fun q => if q.1 = pid then (q.1, signalAllThreads q.2 sig) else q)

/-- `WasiProcess::join_any_child` (lines 617-652) observed at a quiescent
point.  The entry check returns `Errno::Child` when the children list is
empty.  Otherwise the `select_all` over the children's joins is modelled by
an oracle `winner` naming the child whose join completed first; its exit
code is its process latch, and the completed child is retained out of the
children list.  `none` stands for an execution that is still suspended (or
an oracle that names no completed live child). -/
def join_any_child (processes : List (Nat × WasiProcess)) (p : WasiProcess)
    (winner : Nat) : Option (Except Unit (Option (Nat × Nat)) × WasiProcess) :=
  if p.children.isEmpty then some (Except.error (), p)
  else
    match processes.lookup winner with
    | none => none
    | some pc =>
      match pc.finished with
      | none => none
      | some code =>
        if p.children.contains winner then
          some (Except.ok (some (winner, code)),
                { p with children := p.children.filter (fun a => a != winner) })
        else none

end WasiProcess

/-- `WasiControlPlane`: process map, pid seed and reserved-pid set. -/
structure WasiControlPlane where
  processes : List (Nat × WasiProcess)
  process_seed : Nat
  reserved : List Nat
deriving DecidableEq

namespace WasiControlPlane

/-- `WasiControlPlane::reserve_pid` (lines 698-724): fetch-and-add the seed,
retry while the candidate is reserved, reserve it, then give it back up and
retry if it is live in the process map.  `fuel` bounds the retries; `none`
means the bound was hit. -/
def reserve_pid : Nat → WasiControlPlane → Option (Nat × WasiControlPlane)
  | 0, _ => none
  | Nat.succ fuel, plane =>
    let pid := plane.process_seed % 4294967296
    let plane1 : WasiControlPlane :=
      { plane with process_seed := (plane.process_seed + 1) % 4294967296 }
    if plane1.reserved.contains pid then
      reserve_pid fuel plane1
    else
      let plane2 : WasiControlPlane := { plane1 with reserved := pid :: plane1.reserved }
      if (plane2.processes.lookup pid).isSome then
        reserve_pid fuel { plane2 with reserved := plane2.reserved.filter (fun x => x != pid) }
      else
        some (pid, plane2)

end WasiControlPlane

/-! Concrete sample states used by witnesses and counterexamples. -/

/-- A freshly created process (`WasiControlPlane::new_process` inner state). -/
def procEmpty : WasiProcess :=
  { threads := [], thread_count := 0, thread_seed := 0,
    finished := none, children := [], waiting := 0 }

/-- A process holding exactly its main thread. -/
def procOneMain : WasiProcess :=
  { threads := [(0, { is_main := true, finished := none, signals := [] })],
    thread_count := 1, thread_seed := 1,
    finished := none, children := [], waiting := 0 }

/-- A process whose exit latch is set to 9. -/
def procFinished9 : WasiProcess :=
  { threads := [], thread_count := 0, thread_seed := 0,
    finished := some 9, children := [], waiting := 0 }

/-- A process with one child process, pid 2. -/
def procOneChild : WasiProcess :=
  { threads := [], thread_count := 0, thread_seed := 0,
    finished := none, children := [2], waiting := 0 }

/-- A process with a positive wait counter and one child, pid 5. -/
def procMidWaiting : WasiProcess :=
  { threads := [], thread_count := 0, thread_seed := 0,
    finished := none, children := [5], waiting := 1 }

/-- A waiting process whose children are pid 2 (live, not waiting), pid 3
(not live in the plane) and pid 4 (live and itself waiting). -/
def procParentW3 : WasiProcess :=
  { threads := [(0, { is_main := true, finished := none, signals := [] })],
    thread_count := 1, thread_seed := 1,
    finished := none, children := [2, 3, 4], waiting := 1 }

/-- A plane in which pid 1 waits on a live child (2), a dead child (3) and a
waiting child (4) whose own child is pid 5. -/
def planeThree : List (Nat × WasiProcess) :=
  [(1, procParentW3), (2, procOneMain), (4, procMidWaiting), (5, procOneMain)]

/-- The head segment left by `add_snapshot([0xAA;64],[0xAA;64],1,[1],[2])`
on a fresh thread. -/
def segAA : ThreadStack :=
  { memory_stack := List.replicate 64 170,
    memory_stack_corrected := List.replicate 64 170,
    snapshots := [(1, { call_stack := [1], store_data := [2] })] }

/-! Helper lemmas. -/

theorem lookup_filter_ne {α : Type} (l : List (Nat × α)) (id : Nat) :
    (l.filter (fun q => q.1 != id)).lookup id = none := by
  induction l with
  | nil => rfl
  | cons a t ih =>
    obtain ⟨k, v⟩ := a
    by_cases h : k = id
    · simp only [List.filter_cons, h, bne_self_eq_false, Bool.false_eq_true, if_false]
      exact ih
    · have hb : (k != id) = true := bne_iff_ne.mpr h
      have hk : (id == k) = false := beq_eq_false_iff_ne.mpr (Ne.symm h)
      simp only [List.filter_cons, hb, if_true, List.lookup, hk]
      exact ih

theorem foldl_terminate_some (cs : List Nat) (v : Nat) :
    List.foldl WasiThread.terminate (some v) cs = some v := by
  induction cs with
  | nil => rfl
  | cons c t ih => exact ih

theorem addSnapshotLoop_invalid (seg : ThreadStack) (rest : List ThreadStack)
    (ms msc : List Nat) (hash : Nat) (rw st : List Nat)
    (h : stackInvalid seg ms = true) :
    addSnapshotLoop seg rest ms msc hash rw st
      = ({ memory_stack := ms, memory_stack_corrected := msc,
           snapshots := [(hash, { call_stack := rw, store_data := st })] }, []) := by
  rw [addSnapshotLoop.eq_def, dif_pos h]

theorem addSnapshotLoop_insert (seg : ThreadStack) (rest : List ThreadStack)
    (ms msc : List Nat) (hash : Nat) (rw st : List Nat)
    (h : stackInvalid seg ms = false)
    (h2 : (ms.drop seg.memory_stack.length).isEmpty = true) :
    addSnapshotLoop seg rest ms msc hash rw st
      = ({ seg with snapshots :=
            (hash, { call_stack := rw, store_data := st }) :: seg.snapshots }, rest) := by
  rw [addSnapshotLoop.eq_def, dif_neg (by simp [h]), dif_pos h2]

theorem addSnapshotLoop_descend_nil (seg : ThreadStack)
    (ms msc rem : List Nat) (hash : Nat) (rw st : List Nat)
    (hrem : ms.drop seg.memory_stack.length = rem)
    (h : stackInvalid seg ms = false) (h2 : rem.isEmpty = false) :
    addSnapshotLoop seg [] ms msc hash rw st
      = (seg,
         (addSnapshotLoop ⟨rem, [], []⟩ [] rem msc hash rw st).1 ::
         (addSnapshotLoop ⟨rem, [], []⟩ [] rem msc hash rw st).2) := by
  rw [addSnapshotLoop.eq_def, dif_neg (by simp [h]), dif_neg (by simp [hrem, h2])]
  rw [hrem]

theorem add_snapshot_initial (ms msc : List Nat) (hash : Nat) (rw st : List Nat) :
    WasiThread.add_snapshot initialChain ms msc hash rw st
      = ({ memory_stack := ms, memory_stack_corrected := msc,
           snapshots := [(hash, { call_stack := rw, store_data := st })] }, []) := by
  apply addSnapshotLoop_invalid
  simp [stackInvalid, initialChain]

/-- C5: the exit latch is write-once: `terminate c` on an unset latch stores
`Some c`; any sequence of later `terminate` calls leaves it at `Some c`, and
`try_join` (hence also a settled `join`) still reads `Some c`. -/
theorem terminate_write_once (c : Nat) (cs : List Nat) :
    WasiThread.terminate none c = some c ∧
    List.foldl WasiThread.terminate (WasiThread.terminate none c) cs = some c ∧
    WasiThread.try_join
        (List.foldl WasiThread.terminate (WasiThread.terminate none c) cs) = some c :=
  ⟨rfl, foldl_terminate_some cs c, foldl_terminate_some cs c⟩

/-- C8: `signal s` twice on an empty pending set followed by a drain yields
`Ok [s]` (the duplicate is suppressed), and a drain on an empty pending set
returns a fresh subscription while the set stays empty. -/
theorem signal_dedup_drain (s : Nat) :
    WasiThread.pop_signals_or_subscribe
        (WasiThread.signal (WasiThread.signal [] s) s) = (Except.ok [s], []) ∧
    WasiThread.pop_signals_or_subscribe ([] : List Nat) = (Except.error (), []) := by
  constructor
  · have h1 : WasiThread.signal [] s = [s] := rfl
    have h2 : WasiThread.signal [s] s = [s] := by
      simp [WasiThread.signal]
    rw [h1, h2]
    rfl
  · rfl

/-- C10: the `u32` thread count is decremented unconditionally by the drop
handler, even when the id is absent from the thread table; at `thread_count
= 0` with the thread already removed the subtraction underflows (wrapping to
`2^32 - 1`), while under the precondition that the thread is still
registered and the count is positive it is an exact decrement by one. -/
theorem thread_count_decrement :
    (∀ p : WasiProcess, ∀ id : Nat, p.threads.lookup id = none →
        (WasiProcess.dropThreadHandle p id).1.thread_count
          = (p.thread_count + 4294967295) % 4294967296) ∧
    ((WasiProcess.dropThreadHandle procEmpty 7).1.thread_count = 4294967295) ∧
    (∀ p : WasiProcess, ∀ id : Nat, ∀ t : WasiThreadState,
        p.threads.lookup id = some t → 0 < p.thread_count →
        p.thread_count < 4294967296 →
        (WasiProcess.dropThreadHandle p id).1.thread_count = p.thread_count - 1) := by
  refine ⟨?_, ?_, ?_⟩
  · intro p id h
    simp [WasiProcess.dropThreadHandle, h]
  · decide
  · intro p id t h h1 h2
    simp only [WasiProcess.dropThreadHandle, h]
    omega

theorem thread_count_decrement_witness :
    ((WasiProcess.dropThreadHandle procEmpty 7).1.thread_count = 4294967295) ∧
    ((WasiProcess.dropThreadHandle procOneMain 0).1.thread_count = 0) :=
  ⟨thread_count_decrement.2.1,
   thread_count_decrement.2.2 procOneMain 0
     { is_main := true, finished := none, signals := [] } rfl (by decide) (by decide)⟩

/-- C4 counterexample: after the main thread's last handle is dropped the
count is back at zero, so a later `new_thread` produces a second
main-flagged thread in the same process lifetime. -/
theorem second_main_flag_cex :
    ((WasiProcess.new_thread procEmpty).2.2 = true) ∧
    ((WasiProcess.new_thread
        (WasiProcess.dropThreadHandle (WasiProcess.new_thread procEmpty).1
          (WasiProcess.new_thread procEmpty).2.1).1).2.2 = true) := by
  decide

/-- C4 (amended): `new_thread` flags `is_main` exactly when the thread count
is zero at the call; a `new_thread` immediately following another (no drop
in between, no u32 wraparound of the count) is never flagged main.  Whenever
drops bring the count back to zero, a later `new_thread` is flagged main
again. -/
theorem is_main_iff_count_zero (p : WasiProcess) :
    ((WasiProcess.new_thread p).2.2 = true ↔ p.thread_count = 0) ∧
    (p.thread_count + 1 < 4294967296 →
      (WasiProcess.new_thread (WasiProcess.new_thread p).1).2.2 = false) := by
  constructor
  · simp [WasiProcess.new_thread]
  · intro h
    simp [WasiProcess.new_thread]
    omega

theorem is_main_iff_count_zero_witness :
    (WasiProcess.new_thread (WasiProcess.new_thread procEmpty).1).2.2 = false :=
  (is_main_iff_count_zero procEmpty).2 (by decide)

/-- C6: dropping the last handle of a still-registered thread removes it
from the table, decrements the count by one, and terminates it with exit
code 0 if not already exited (for the main thread this writes the process
latch); in particular for a process holding a single main thread the drop
makes `try_join` (the settled `join`) return `Some 0` and `active_threads`
return 0. -/
theorem drop_last_handle (p : WasiProcess) (id : Nat) (t : WasiThreadState)
    (hreg : p.threads.lookup id = some t)
    (hc1 : 0 < p.thread_count) (hc2 : p.thread_count < 4294967296) :
    ((WasiProcess.dropThreadHandle p id).1.threads.lookup id = none) ∧
    ((WasiProcess.dropThreadHandle p id).1.thread_count = p.thread_count - 1) ∧
    (t.is_main = true →
      (WasiProcess.dropThreadHandle p id).1.finished
        = WasiThread.terminate p.finished 0) ∧
    (t.is_main = false →
      (WasiProcess.dropThreadHandle p id).2
        = some { t with finished := WasiThread.terminate t.finished 0 }) ∧
    (t.is_main = true → p.finished = none → p.thread_count = 1 →
      (WasiProcess.dropThreadHandle p id).1.try_join = some 0 ∧
      (WasiProcess.dropThreadHandle p id).1.active_threads = 0) := by
  refine ⟨?_, ?_, ?_, ?_, ?_⟩
  · simp only [WasiProcess.dropThreadHandle, hreg]
    exact lookup_filter_ne p.threads id
  · simp only [WasiProcess.dropThreadHandle, hreg]
    omega
  · intro hm
    simp [WasiProcess.dropThreadHandle, hreg, hm]
  · intro hm
    simp [WasiProcess.dropThreadHandle, hreg, hm]
  · intro hm hf hc
    constructor
    · simp [WasiProcess.dropThreadHandle, hreg, hm, hf, WasiProcess.try_join,
        WasiThread.terminate]
    · simp only [WasiProcess.dropThreadHandle, hreg, WasiProcess.active_threads]
      omega

theorem drop_last_handle_witness :
    (WasiProcess.dropThreadHandle procOneMain 0).1.try_join = some 0 ∧
    (WasiProcess.dropThreadHandle procOneMain 0).1.active_threads = 0 :=
  (drop_last_handle procOneMain 0 { is_main := true, finished := none, signals := [] }
      rfl (by decide) (by decide)).2.2.2.2 rfl rfl rfl

/-- C2: when the incoming `memory_stack` fails the validity check against
the (head) segment, the segment and all its successors are discarded and
replaced by a fresh segment seeded by the incoming stacks, holding only the
new snapshot; afterwards `get_snapshot` is `none` for every hash other than
the inserted one (in particular for every hash stored only in the discarded
subtree), and for the inserted hash it returns the new corrected stack with
the new rewind stack and store data. -/
theorem add_snapshot_invalidation (seg : ThreadStack) (rest : List ThreadStack)
    (ms msc : List Nat) (hash : Nat) (rw st : List Nat)
    (hinv : stackInvalid seg ms = true) :
    WasiThread.add_snapshot (seg, rest) ms msc hash rw st
      = ({ memory_stack := ms, memory_stack_corrected := msc,
           snapshots := [(hash, { call_stack := rw, store_data := st })] }, []) ∧
    WasiThread.get_snapshot (WasiThread.add_snapshot (seg, rest) ms msc hash rw st) hash
      = some (msc, rw, st) ∧
    ∀ h2, h2 ≠ hash →
      WasiThread.get_snapshot (WasiThread.add_snapshot (seg, rest) ms msc hash rw st) h2
        = none := by
  have h1 : WasiThread.add_snapshot (seg, rest) ms msc hash rw st
      = ({ memory_stack := ms, memory_stack_corrected := msc,
           snapshots := [(hash, { call_stack := rw, store_data := st })] }, []) :=
    addSnapshotLoop_invalid seg rest ms msc hash rw st hinv
  refine ⟨h1, ?_, ?_⟩
  · rw [h1]
    simp [WasiThread.get_snapshot, getSnapshotLoop, List.lookup]
  · intro h2 hne
    have hb : (h2 == hash) = false := beq_eq_false_iff_ne.mpr hne
    rw [h1]
    simp [WasiThread.get_snapshot, getSnapshotLoop, List.lookup, hb]

theorem add_snapshot_invalidation_witness :
    WasiThread.add_snapshot initialChain (List.replicate 64 170)
        (List.replicate 64 170) 1 [1] [2] = (segAA, []) ∧
    stackInvalid segAA (List.replicate 64 187) = true ∧
    WasiThread.get_snapshot (WasiThread.add_snapshot (segAA, [])
        (List.replicate 64 187) (List.replicate 64 187) 2 [3] [4]) 1 = none ∧
    WasiThread.get_snapshot (WasiThread.add_snapshot (segAA, [])
        (List.replicate 64 187) (List.replicate 64 187) 2 [3] [4]) 2
      = some (List.replicate 64 187, [3], [4]) := by
  refine ⟨add_snapshot_initial _ _ _ _ _, by decide, ?_, ?_⟩
  · exact (add_snapshot_invalidation segAA [] (List.replicate 64 187)
      (List.replicate 64 187) 2 [3] [4] (by decide)).2.2 1 (by decide)
  · exact (add_snapshot_invalidation segAA [] (List.replicate 64 187)
      (List.replicate 64 187) 2 [3] [4] (by decide)).2.1

theorem snapshot_chain_eval (a b c : Nat) (rwa sta rwb stb : List Nat) :
    WasiThread.add_snapshot
        (WasiThread.add_snapshot initialChain (List.replicate 32 a)
          (List.replicate 32 a) 1 rwa sta)
        (List.replicate 32 a ++ List.replicate 32 b)
        (List.replicate 32 a ++ List.replicate 32 c) 2 rwb stb
      = (⟨List.replicate 32 a, List.replicate 32 a,
            [(1, { call_stack := rwa, store_data := sta })]⟩,
         [⟨List.replicate 32 b, [],
            [(2, { call_stack := rwb, store_data := stb })]⟩]) := by
  rw [add_snapshot_initial]
  show addSnapshotLoop
      ⟨List.replicate 32 a, List.replicate 32 a,
        [(1, { call_stack := rwa, store_data := sta })]⟩ []
      (List.replicate 32 a ++ List.replicate 32 b)
      (List.replicate 32 a ++ List.replicate 32 c) 2 rwb stb = _
  have hmem : ((a, a) : Nat × Nat)
      ∈ (List.replicate 32 a).zip (List.replicate 32 a ++ List.replicate 32 b) := by
    rw [List.replicate_succ, List.cons_append, List.zip_cons_cons]
    exact List.mem_cons_self _ _
  have hany1 : ((List.replicate 32 a).zip
      (List.replicate 32 a ++ List.replicate 32 b)).any (fun p => p.1 == p.2) = true :=
    List.any_eq_true.mpr ⟨(a, a), hmem, by simp⟩
  have hv1 : stackInvalid
      ⟨List.replicate 32 a, List.replicate 32 a,
        [(1, { call_stack := rwa, store_data := sta })]⟩
      (List.replicate 32 a ++ List.replicate 32 b) = false := by
    simp [stackInvalid, hany1]
  have hrem : (List.replicate 32 a ++ List.replicate 32 b).drop
      (ThreadStack.memory_stack ⟨List.replicate 32 a, List.replicate 32 a,
        [(1, { call_stack := rwa, store_data := sta })]⟩).length
      = List.replicate 32 b := List.drop_left _ _
  have hne : (List.replicate (32:Nat) b).isEmpty = false := by
    rw [List.replicate_succ]; rfl
  rw [addSnapshotLoop_descend_nil _ _ _ (List.replicate 32 b) _ _ _ hrem hv1 hne]
  have hmem2 : ((b, b) : Nat × Nat)
      ∈ (List.replicate 32 b).zip (List.replicate 32 b) := by
    rw [List.replicate_succ, List.zip_cons_cons]
    exact List.mem_cons_self _ _
  have hany2 : ((List.replicate 32 b).zip (List.replicate 32 b)).any
      (fun p => p.1 == p.2) = true :=
    List.any_eq_true.mpr ⟨(b, b), hmem2, by simp⟩
  have hv2 : stackInvalid ⟨List.replicate 32 b, [], []⟩ (List.replicate 32 b) = false := by
    simp [stackInvalid, hany2]
  have hemp : ((List.replicate 32 b).drop
      (ThreadStack.memory_stack ⟨List.replicate 32 b, [], []⟩).length).isEmpty = true := by
    show ((List.replicate 32 b).drop (List.replicate 32 b).length).isEmpty = true
    rw [List.drop_length]
    rfl
  rw [addSnapshotLoop_insert _ _ _ _ _ _ _ hv2 hemp]

/-- C1 (amended): after `add_snapshot([A;32],[A;32],h=1,rw_a,st_a)` and then
`add_snapshot([A;32]++[B;32],[A;32]++[Bc;32],h=2,rw_b,st_b)` on a fresh
thread, `get_snapshot(1)` returns `([A;32], rw_a, st_a)` and
`get_snapshot(2)` returns `([A;32], rw_b, st_b)`: `get_snapshot`
concatenates the `memory_stack_corrected` fields of the segments up to the
one holding the hash, and the successor segment allocated while descending
records an empty `memory_stack_corrected`, so the corrected suffix `[Bc;32]`
is never part of the result. -/
theorem snapshot_chain_extension (a b c : Nat) (rwa sta rwb stb : List Nat) :
    WasiThread.get_snapshot (WasiThread.add_snapshot
        (WasiThread.add_snapshot initialChain (List.replicate 32 a)
          (List.replicate 32 a) 1 rwa sta)
        (List.replicate 32 a ++ List.replicate 32 b)
        (List.replicate 32 a ++ List.replicate 32 c) 2 rwb stb) 1
      = some (List.replicate 32 a, rwa, sta) ∧
    WasiThread.get_snapshot (WasiThread.add_snapshot
        (WasiThread.add_snapshot initialChain (List.replicate 32 a)
          (List.replicate 32 a) 1 rwa sta)
        (List.replicate 32 a ++ List.replicate 32 b)
        (List.replicate 32 a ++ List.replicate 32 c) 2 rwb stb) 2
      = some (List.replicate 32 a, rwb, stb) := by
  rw [snapshot_chain_eval]
  constructor
  · simp [WasiThread.get_snapshot, getSnapshotLoop, List.lookup]
  · simp [WasiThread.get_snapshot, getSnapshotLoop, List.lookup]

/-- C1 counterexample: with `A = 1`, `B = 2`, `Bc = 3`, `get_snapshot(2)`
after the two chain-extending calls does not return
`([A;32] ++ [Bc;32], rw_b, st_b)` as the claim states. -/
theorem snapshot_chain_extension_cex :
    WasiThread.get_snapshot (WasiThread.add_snapshot
        (WasiThread.add_snapshot initialChain (List.replicate 32 1)
          (List.replicate 32 1) 1 [9] [8])
        (List.replicate 32 1 ++ List.replicate 32 2)
        (List.replicate 32 1 ++ List.replicate 32 3) 2 [7] [6]) 2
      ≠ some (List.replicate 32 1 ++ List.replicate 32 3, [7], [6]) := by
  rw [snapshot_chain_eval 1 2 3 [9] [8] [7] [6]]
  decide

theorem filter_bne_cons_self (r : List Nat) (x : Nat) (hx : x ∉ r) :
    (x :: r).filter (fun y => y != x) = r := by
  rw [List.filter_cons]
  simp only [bne_self_eq_false, Bool.false_eq_true, if_false]
  exact List.filter_eq_self.mpr
    (fun a ha => bne_iff_ne.mpr (fun he => hx (he ▸ ha)))

/-- C3 (amended): a successful `reserve_pid` returns an id that is not live
in the process map and was not previously reserved; the process map is
untouched, and at the moment of return the reserved set is exactly the old
one with the returned id freshly added (the id is still reserved by the
caller itself until it finalises). -/
theorem reserve_pid_fresh (fuel : Nat) (plane plane' : WasiControlPlane) (pid : Nat)
    (h : WasiControlPlane.reserve_pid fuel plane = some (pid, plane')) :
    plane.processes.lookup pid = none ∧
    pid ∉ plane.reserved ∧
    plane'.processes = plane.processes ∧
    plane'.reserved = pid :: plane.reserved := by
  induction fuel generalizing plane with
  | zero => exact absurd h (by simp [WasiControlPlane.reserve_pid])
  | succ fuel ih =>
    rw [WasiControlPlane.reserve_pid] at h
    by_cases hres : plane.reserved.contains (plane.process_seed % 4294967296) = true
    · rw [if_pos hres] at h
      obtain ⟨h1, h2, h3, h4⟩ :=
        ih { plane with process_seed := (plane.process_seed + 1) % 4294967296 } h
      exact ⟨h1, h2, h3, h4⟩
    · rw [if_neg hres] at h
      by_cases hlive :
          (plane.processes.lookup (plane.process_seed % 4294967296)).isSome = true
      · rw [if_pos hlive] at h
        have hnotmem : plane.process_seed % 4294967296 ∉ plane.reserved := by
          intro hmem
          exact hres (by simpa using hmem)
        have hfix : ((plane.process_seed % 4294967296) :: plane.reserved).filter
            (fun x => x != plane.process_seed % 4294967296) = plane.reserved :=
          filter_bne_cons_self plane.reserved _ hnotmem
        obtain ⟨h1, h2, h3, h4⟩ := ih _ h
        refine ⟨h1, ?_, h3, ?_⟩
        · simpa [hfix] using h2
        · simpa [hfix] using h4
      · rw [if_neg hlive] at h
        obtain ⟨hpid, hplane⟩ := Prod.mk.injEq .. ▸ Option.some.inj h
        subst hpid
        refine ⟨?_, ?_, ?_, ?_⟩
        · exact Option.not_isSome_iff_eq_none.mp hlive
        · intro hmem
          exact hres (by simpa using hmem)
        · rw [← hplane]
        · rw [← hplane]

theorem reserve_pid_fresh_witness :
    (([(0, procEmpty)] : List (Nat × WasiProcess)).lookup 2 = none) ∧
    (2 ∉ ([1] : List Nat)) ∧
    (([(0, procEmpty)] : List (Nat × WasiProcess)) = [(0, procEmpty)]) ∧
    (([2, 1] : List Nat) = 2 :: [1]) :=
  reserve_pid_fresh 3
    { processes := [(0, procEmpty)], process_seed := 0, reserved := [1] }
    { processes := [(0, procEmpty)], process_seed := 3, reserved := [2, 1] }
    2 (by decide)

/-- C3 counterexample: at the moment `reserve_pid` returns, the returned id
is itself a member of the reserved set (the algorithm inserts it and returns
with it still reserved), contradicting the claim that the returned id is not
in the reserved set at that moment. -/
theorem reserve_pid_in_reserved_cex :
    WasiControlPlane.reserve_pid 1
        { processes := [], process_seed := 0, reserved := [] }
      = some (0, { processes := [], process_seed := 1, reserved := [0] }) ∧
    0 ∈ ({ processes := [], process_seed := 1,
           reserved := [0] } : WasiControlPlane).reserved := by
  constructor
  · decide
  · simp

/-- C9: `join_any_child` returns the no-children error (`Errno::Child`)
exactly when the children list is empty at entry; with a non-empty children
list and a completed live child named by the completion oracle it returns
`Ok` with that child's id and exit code, retaining the child out of the
children list. -/
theorem join_any_child_spec (processes : List (Nat × WasiProcess))
    (p : WasiProcess) (winner : Nat) :
    (p.children = [] →
      WasiProcess.join_any_child processes p winner = some (Except.error (), p)) ∧
    (∀ r, WasiProcess.join_any_child processes p winner = some (Except.error (), r) →
      p.children = []) ∧
    (∀ pc code, winner ∈ p.children → processes.lookup winner = some pc →
      pc.finished = some code →
      WasiProcess.join_any_child processes p winner
        = some (Except.ok (some (winner, code)),
                { p with children := p.children.filter (fun a => a != winner) })) := by
  refine ⟨?_, ?_, ?_⟩
  · intro h
    simp [WasiProcess.join_any_child, h]
  · intro r h
    by_cases hc : p.children.isEmpty = true
    · cases hcv : p.children with
      | nil => rfl
      | cons x xs => rw [hcv] at hc; exact absurd hc (by simp)
    · exfalso
      rcases hl : processes.lookup winner with _ | pc
      · simp [WasiProcess.join_any_child, hc, hl] at h
      · rcases hf : pc.finished with _ | code
        · simp [WasiProcess.join_any_child, hc, hl, hf] at h
        · by_cases hw : p.children.contains winner = true
          · simp [WasiProcess.join_any_child, hc, hl, hf, hw] at h
          · simp [WasiProcess.join_any_child, hc, hl, hf, hw] at h
  · intro pc code hw hl hf
    have hne : p.children.isEmpty = false := by
      cases hcv : p.children with
      | nil => rw [hcv] at hw; exact absurd hw (List.not_mem_nil _)
      | cons x xs => rfl
    have hcont : p.children.contains winner = true := by simpa using hw
    simp [WasiProcess.join_any_child, hne, hl, hf, hcont]
    exact hw

theorem join_any_child_spec_witness :
    (WasiProcess.join_any_child ([] : List (Nat × WasiProcess)) procEmpty 0
      = some (Except.error (), procEmpty)) ∧
    (WasiProcess.join_any_child [(2, procFinished9)] procOneChild 2
      = some (Except.ok (some (2, 9)),
              { procOneChild with
                  children := procOneChild.children.filter (fun a => a != 2) })) := by
  constructor
  · exact (join_any_child_spec [] procEmpty 0).1 rfl
  · exact (join_any_child_spec [(2, procFinished9)] procOneChild 2).2.2
      procFinished9 9 (by decide) rfl rfl

theorem signal_process_succ (fuel : Nat) (processes : List (Nat × WasiProcess))
    (pid sig : Nat) :
    WasiProcess.signal_process (fuel + 1) processes pid sig
      = match processes.lookup pid with
        | none => processes
        | some p =>
          if 0 < p.waiting then
            p.children.foldl (fun acc c => WasiProcess.signal_process fuel acc c sig)
              processes
          else
            processes.map
              (fun q => if q.1 = pid then (q.1, WasiProcess.signalAllThreads q.2 sig) else q) :=
  rfl

theorem lookup_map_replace {α : Type} (l : List (Nat × α)) (j k : Nat) (f : α → α) :
    (l.map (fun q => if q.1 = j then (q.1, f q.2) else q)).lookup k
      = if k = j then (l.lookup k).map f else l.lookup k := by
  induction l with
  | nil => simp [List.lookup]
  | cons a t ih =>
    obtain ⟨x, v⟩ := a
    by_cases hxj : x = j
    · have hhead : (if ((x, v) : Nat × α).1 = j
            then (((x, v) : Nat × α).1, f ((x, v) : Nat × α).2) else (x, v))
          = (x, f v) := by simp [hxj]
      rw [List.map_cons, hhead]
      by_cases hkx : k = x
      · subst hkx; subst hxj
        simp [List.lookup]
      · have hb : (k == x) = false := beq_eq_false_iff_ne.mpr hkx
        have hkj : ¬ k = j := fun hh => hkx (hh.trans hxj.symm)
        simp [List.lookup, hb, ih, hkj]
    · have hhead : (if ((x, v) : Nat × α).1 = j
            then (((x, v) : Nat × α).1, f ((x, v) : Nat × α).2) else (x, v))
          = (x, v) := by simp [hxj]
      rw [List.map_cons, hhead]
      by_cases hkx : k = x
      · subst hkx
        simp [List.lookup, hxj]
      · have hb : (k == x) = false := beq_eq_false_iff_ne.mpr hkx
        simp [List.lookup, hb, ih]

theorem signal_mem (sigs : List Nat) (s : Nat) : s ∈ WasiThread.signal sigs s := by
  unfold WasiThread.signal
  by_cases h : sigs.contains s = true
  · rw [if_pos h]
    simpa using h
  · rw [if_neg h]
    exact List.mem_append_right _ (List.mem_singleton.mpr rfl)

theorem signal_idem (sigs : List Nat) (s : Nat) :
    WasiThread.signal (WasiThread.signal sigs s) s = WasiThread.signal sigs s := by
  have h : (WasiThread.signal sigs s).contains s = true := by
    simpa using signal_mem sigs s
  show (if (WasiThread.signal sigs s).contains s then WasiThread.signal sigs s
        else WasiThread.signal sigs s ++ [s]) = WasiThread.signal sigs s
  rw [if_pos h]

theorem signalThread_idem (t : WasiThreadState) (s : Nat) :
    WasiProcess.signalThread (WasiProcess.signalThread t s) s
      = WasiProcess.signalThread t s := by
  simp [WasiProcess.signalThread, signal_idem]

theorem map_signalThread_idem (l : List (Nat × WasiThreadState)) (s : Nat) :
    (l.map (fun q => (q.1, WasiProcess.signalThread q.2 s))).map
        (fun q => (q.1, WasiProcess.signalThread q.2 s))
      = l.map (fun q => (q.1, WasiProcess.signalThread q.2 s)) := by
  induction l with
  | nil => rfl
  | cons a t ih => simp [ih, signalThread_idem]

theorem signalAllThreads_idem (p : WasiProcess) (s : Nat) :
    WasiProcess.signalAllThreads (WasiProcess.signalAllThreads p s) s
      = WasiProcess.signalAllThreads p s := by
  simp only [WasiProcess.signalAllThreads, map_signalThread_idem]

theorem signal_process_deliver (fuel : Nat) (processes : List (Nat × WasiProcess))
    (pid : Nat) (p : WasiProcess) (sig : Nat)
    (hl : processes.lookup pid = some p) (hw : p.waiting = 0) :
    WasiProcess.signal_process (fuel + 1) processes pid sig
      = processes.map
          (fun q => if q.1 = pid then (q.1, WasiProcess.signalAllThreads q.2 sig) else q) := by
  rw [signal_process_succ fuel processes pid sig, hl]
  exact if_neg (by omega)


theorem signal_process_dead (fuel : Nat) (processes : List (Nat × WasiProcess))
    (pid sig : Nat) (h : processes.lookup pid = none) :
    WasiProcess.signal_process fuel processes pid sig = processes := by
  cases fuel with
  | zero => rfl
  | succ fuel => simp only [signal_process_succ, h]

theorem option_map_sa_idem (sig : Nat) (o : Option WasiProcess) :
    (o.map (fun q => WasiProcess.signalAllThreads q sig)).map
        (fun q => WasiProcess.signalAllThreads q sig)
      = o.map (fun q => WasiProcess.signalAllThreads q sig) := by
  cases o with
  | none => rfl
  | some v => simp [signalAllThreads_idem]

theorem sa_rel_trans (sig : Nat) (a b c : Option WasiProcess)
    (h1 : b = a ∨ b = a.map (fun q => WasiProcess.signalAllThreads q sig))
    (h2 : c = b ∨ c = b.map (fun q => WasiProcess.signalAllThreads q sig)) :
    c = a ∨ c = a.map (fun q => WasiProcess.signalAllThreads q sig) := by
  rcases h1 with h1 | h1 <;> rcases h2 with h2 | h2
  · left; rw [h2, h1]
  · right; rw [h2, h1]
  · right; rw [h2, h1]
  · right; rw [h2, h1, option_map_sa_idem]

theorem signal_process_monotone (fuel : Nat) :
    ∀ (processes : List (Nat × WasiProcess)) (pid sig k : Nat),
      (WasiProcess.signal_process fuel processes pid sig).lookup k = processes.lookup k ∨
      (WasiProcess.signal_process fuel processes pid sig).lookup k
        = (processes.lookup k).map (fun q => WasiProcess.signalAllThreads q sig) := by
  induction fuel with
  | zero => intro processes pid sig k; exact Or.inl rfl
  | succ fuel ih =>
    intro processes pid sig k
    rcases hl : processes.lookup pid with _ | q
    · rw [signal_process_dead (fuel + 1) processes pid sig hl]
      exact Or.inl rfl
    · by_cases hq : 0 < q.waiting
      · have hrw : WasiProcess.signal_process (fuel + 1) processes pid sig
            = q.children.foldl
                (fun acc c => WasiProcess.signal_process fuel acc c sig) processes := by
          rw [signal_process_succ fuel processes pid sig, hl]
          exact if_pos hq
        rw [hrw]
        have hfold : ∀ (cs : List Nat) (acc : List (Nat × WasiProcess)),
            (acc.lookup k = processes.lookup k ∨
             acc.lookup k
               = (processes.lookup k).map (fun q => WasiProcess.signalAllThreads q sig)) →
            ((cs.foldl (fun acc c => WasiProcess.signal_process fuel acc c sig) acc).lookup k
                = processes.lookup k ∨
             (cs.foldl (fun acc c => WasiProcess.signal_process fuel acc c sig) acc).lookup k
                = (processes.lookup k).map (fun q => WasiProcess.signalAllThreads q sig)) := by
          intro cs
          induction cs with
          | nil => intro acc ha; exact ha
          | cons c cs ihc =>
            intro acc ha
            rw [List.foldl_cons]
            exact ihc _ (sa_rel_trans sig (processes.lookup k) (acc.lookup k) _ ha
              (ih acc c sig k))
        exact hfold q.children processes (Or.inl rfl)
      · have hw0 : q.waiting = 0 := by omega
        rw [signal_process_deliver fuel processes pid q sig hl hw0,
          lookup_map_replace processes pid k (fun q => WasiProcess.signalAllThreads q sig)]
        by_cases hk : k = pid
        · rw [if_pos hk]
          exact Or.inr rfl
        · rw [if_neg hk]
          exact Or.inl rfl

theorem signal_process_waiting_untouched (fuel : Nat) :
    ∀ (processes : List (Nat × WasiProcess)) (pid sig k : Nat) (p : WasiProcess),
      processes.lookup k = some p → 0 < p.waiting →
      (WasiProcess.signal_process fuel processes pid sig).lookup k = some p := by
  induction fuel with
  | zero => intro processes pid sig k p hk hw; exact hk
  | succ fuel ih =>
    intro processes pid sig k p hk hw
    rcases hl : processes.lookup pid with _ | q
    · rw [signal_process_dead (fuel + 1) processes pid sig hl]
      exact hk
    · by_cases hq : 0 < q.waiting
      · have hrw : WasiProcess.signal_process (fuel + 1) processes pid sig
            = q.children.foldl
                (fun acc c => WasiProcess.signal_process fuel acc c sig) processes := by
          rw [signal_process_succ fuel processes pid sig, hl]
          exact if_pos hq
        rw [hrw]
        have hfold : ∀ (cs : List Nat) (acc : List (Nat × WasiProcess)),
            acc.lookup k = some p →
            (cs.foldl (fun acc c => WasiProcess.signal_process fuel acc c sig) acc).lookup k
              = some p := by
          intro cs
          induction cs with
          | nil => intro acc ha; exact ha
          | cons c cs ihc =>
            intro acc ha
            rw [List.foldl_cons]
            exact ihc _ (ih acc c sig k p ha hw)
        exact hfold q.children processes hk
      · have hw0 : q.waiting = 0 := by omega
        rw [signal_process_deliver fuel processes pid q sig hl hw0,
          lookup_map_replace processes pid k (fun q => WasiProcess.signalAllThreads q sig)]
        by_cases hkp : k = pid
        · subst hkp
          rw [hk] at hl
          have hpq : p = q := Option.some.inj hl
          rw [hpq] at hw
          exact absurd hw hq
        · rw [if_neg hkp]
          exact hk

theorem signal_children_fold_mono (f sig : Nat) (cs : List Nat) :
    ∀ (acc : List (Nat × WasiProcess)) (k : Nat),
      (cs.foldl (fun acc c => WasiProcess.signal_process f acc c sig) acc).lookup k
          = acc.lookup k ∨
      (cs.foldl (fun acc c => WasiProcess.signal_process f acc c sig) acc).lookup k
          = (acc.lookup k).map (fun q => WasiProcess.signalAllThreads q sig) := by
  induction cs with
  | nil => intro acc k; exact Or.inl rfl
  | cons c cs ihc =>
    intro acc k
    rw [List.foldl_cons]
    exact sa_rel_trans sig (acc.lookup k)
      ((WasiProcess.signal_process f acc c sig).lookup k) _
      (signal_process_monotone f acc c sig k) (ihc _ k)

theorem signal_children_fold_deliver (f sig : Nat)
    (processes : List (Nat × WasiProcess)) (cs : List Nat) :
    ∀ (acc : List (Nat × WasiProcess)),
      (∀ j, acc.lookup j = processes.lookup j ∨
            acc.lookup j
              = (processes.lookup j).map (fun q => WasiProcess.signalAllThreads q sig)) →
      ∀ c ∈ cs, ∀ pc, processes.lookup c = some pc → pc.waiting = 0 →
        (cs.foldl (fun acc c => WasiProcess.signal_process (f + 1) acc c sig) acc).lookup c
          = some (WasiProcess.signalAllThreads pc sig) := by
  induction cs with
  | nil =>
    intro acc _ c hc
    exact absurd hc (List.not_mem_nil c)
  | cons c0 cs ihc =>
    intro acc hmono c hc pc hpc hwc
    rw [List.foldl_cons]
    have hmono1 : ∀ j,
        (WasiProcess.signal_process (f + 1) acc c0 sig).lookup j = processes.lookup j ∨
        (WasiProcess.signal_process (f + 1) acc c0 sig).lookup j
          = (processes.lookup j).map (fun q => WasiProcess.signalAllThreads q sig) :=
      fun j => sa_rel_trans sig (processes.lookup j) (acc.lookup j) _ (hmono j)
        (signal_process_monotone (f + 1) acc c0 sig j)
    rcases List.mem_cons.mp hc with hc0 | hcs
    · subst hc0
      have hacc : acc.lookup c = some pc ∨
          acc.lookup c = some (WasiProcess.signalAllThreads pc sig) := by
        rcases hmono c with h | h
        · exact Or.inl (h.trans hpc)
        · exact Or.inr (by rw [h, hpc]; rfl)
      have hstep : (WasiProcess.signal_process (f + 1) acc c sig).lookup c
          = some (WasiProcess.signalAllThreads pc sig) := by
        rcases hacc with h | h
        · rw [signal_process_deliver f acc c pc sig h hwc,
            lookup_map_replace acc c c (fun q => WasiProcess.signalAllThreads q sig),
            if_pos rfl, h]
          rfl
        · rw [signal_process_deliver f acc c _ sig h hwc,
            lookup_map_replace acc c c (fun q => WasiProcess.signalAllThreads q sig),
            if_pos rfl, h]
          simp [signalAllThreads_idem]
      rcases signal_children_fold_mono (f + 1) sig cs
          (WasiProcess.signal_process (f + 1) acc c sig) c with h | h
      · rw [h]
        exact hstep
      · rw [h, hstep]
        simp [signalAllThreads_idem]
    · exact ihc _ hmono1 c hcs pc hpc hwc

theorem signal_children_fold_nested (f sig : Nat)
    (processes : List (Nat × WasiProcess)) (cs : List Nat) :
    ∀ (acc : List (Nat × WasiProcess)),
      (∀ j, acc.lookup j = processes.lookup j ∨
            acc.lookup j
              = (processes.lookup j).map (fun q => WasiProcess.signalAllThreads q sig)) →
      ∀ c ∈ cs, ∀ pc, processes.lookup c = some pc → 0 < pc.waiting →
      ∀ g ∈ pc.children, ∀ pg, processes.lookup g = some pg → pg.waiting = 0 →
        (cs.foldl (fun acc c => WasiProcess.signal_process (f + 1 + 1) acc c sig) acc).lookup g
          = some (WasiProcess.signalAllThreads pg sig) := by
  induction cs with
  | nil =>
    intro acc _ c hc
    exact absurd hc (List.not_mem_nil c)
  | cons c0 cs ihc =>
    intro acc hmono c hc pc hpc hwc g hg pg hpg hwg
    rw [List.foldl_cons]
    have hmono1 : ∀ j,
        (WasiProcess.signal_process (f + 1 + 1) acc c0 sig).lookup j = processes.lookup j ∨
        (WasiProcess.signal_process (f + 1 + 1) acc c0 sig).lookup j
          = (processes.lookup j).map (fun q => WasiProcess.signalAllThreads q sig) :=
      fun j => sa_rel_trans sig (processes.lookup j) (acc.lookup j) _ (hmono j)
        (signal_process_monotone (f + 1 + 1) acc c0 sig j)
    rcases List.mem_cons.mp hc with hc0 | hcs
    · subst hc0
      have hacc : acc.lookup c = some pc ∨
          acc.lookup c = some (WasiProcess.signalAllThreads pc sig) := by
        rcases hmono c with h | h
        · exact Or.inl (h.trans hpc)
        · exact Or.inr (by rw [h, hpc]; rfl)
      have hstep : (WasiProcess.signal_process (f + 1 + 1) acc c sig).lookup g
          = some (WasiProcess.signalAllThreads pg sig) := by
        rcases hacc with h | h
        · have hrw : WasiProcess.signal_process (f + 1 + 1) acc c sig
              = pc.children.foldl
                  (fun a c2 => WasiProcess.signal_process (f + 1) a c2 sig) acc := by
            rw [signal_process_succ (f + 1) acc c sig, h]
            exact if_pos hwc
          rw [hrw]
          exact signal_children_fold_deliver f sig processes pc.children acc hmono
            g hg pg hpg hwg
        · have hrw : WasiProcess.signal_process (f + 1 + 1) acc c sig
              = pc.children.foldl
                  (fun a c2 => WasiProcess.signal_process (f + 1) a c2 sig) acc := by
            rw [signal_process_succ (f + 1) acc c sig, h]
            exact if_pos hwc
          rw [hrw]
          exact signal_children_fold_deliver f sig processes pc.children acc hmono
            g hg pg hpg hwg
      rcases signal_children_fold_mono (f + 1 + 1) sig cs
          (WasiProcess.signal_process (f + 1 + 1) acc c sig) g with h | h
      · rw [h]
        exact hstep
      · rw [h, hstep]
        simp [signalAllThreads_idem]
    · exact ihc _ hmono1 c hcs pc hpc hwc g hg pg hpg hwg

/-- C7: with the wait-for-children counter zero, `signal_process` delivers
the signal to every registered thread of the process.  With the counter
positive it instead dispatches recursively over the children list with no
assumption on their states: the call is exactly the per-child recursive
dispatch, a dispatch to a child that is not live in the plane changes
nothing (dead children are skipped), the process's own entry is untouched,
every live non-waiting child has the signal delivered to all its threads,
and a live child that is itself waiting keeps its own threads untouched
while the dispatch recurses into its children, delivering to its live
non-waiting children. -/
theorem signal_process_routing (fuel : Nat) (processes : List (Nat × WasiProcess))
    (pid : Nat) (p : WasiProcess) (sig : Nat)
    (hp : processes.lookup pid = some p) :
    (p.waiting = 0 →
      (WasiProcess.signal_process (fuel + 1 + 1 + 1) processes pid sig).lookup pid
          = some (WasiProcess.signalAllThreads p sig) ∧
      ∀ q ∈ (WasiProcess.signalAllThreads p sig).threads, sig ∈ q.2.signals) ∧
    (0 < p.waiting →
      (WasiProcess.signal_process (fuel + 1 + 1 + 1) processes pid sig
          = p.children.foldl
              (fun acc c => WasiProcess.signal_process (fuel + 1 + 1) acc c sig)
              processes) ∧
      (∀ (acc : List (Nat × WasiProcess)) (c : Nat), acc.lookup c = none →
          WasiProcess.signal_process (fuel + 1 + 1) acc c sig = acc) ∧
      ((WasiProcess.signal_process (fuel + 1 + 1 + 1) processes pid sig).lookup pid
          = some p) ∧
      (∀ c ∈ p.children, ∀ pc, processes.lookup c = some pc → pc.waiting = 0 →
          (WasiProcess.signal_process (fuel + 1 + 1 + 1) processes pid sig).lookup c
            = some (WasiProcess.signalAllThreads pc sig)) ∧
      (∀ c ∈ p.children, ∀ pc, processes.lookup c = some pc → 0 < pc.waiting →
          ((WasiProcess.signal_process (fuel + 1 + 1 + 1) processes pid sig).lookup c
              = some pc) ∧
          ∀ g ∈ pc.children, ∀ pg, processes.lookup g = some pg → pg.waiting = 0 →
            (WasiProcess.signal_process (fuel + 1 + 1 + 1) processes pid sig).lookup g
              = some (WasiProcess.signalAllThreads pg sig))) := by
  constructor
  · intro hw
    constructor
    · rw [signal_process_deliver (fuel + 1 + 1) processes pid p sig hp hw,
        lookup_map_replace processes pid pid (fun q => WasiProcess.signalAllThreads q sig),
        if_pos rfl, hp]
      rfl
    · intro q hq
      obtain ⟨a, ha, rfl⟩ := List.mem_map.mp hq
      exact signal_mem a.2.signals sig
  · intro hw
    have hunf : WasiProcess.signal_process (fuel + 1 + 1 + 1) processes pid sig
        = p.children.foldl
            (fun acc c => WasiProcess.signal_process (fuel + 1 + 1) acc c sig)
            processes := by
      rw [signal_process_succ (fuel + 1 + 1) processes pid sig, hp]
      exact if_pos hw
    refine ⟨hunf, ?_, ?_, ?_, ?_⟩
    · intro acc c hdead
      exact signal_process_dead (fuel + 1 + 1) acc c sig hdead
    · exact signal_process_waiting_untouched (fuel + 1 + 1 + 1) processes pid sig pid p
        hp hw
    · intro c hc pc hpc hwc
      rw [hunf]
      exact signal_children_fold_deliver (fuel + 1) sig processes p.children processes
        (fun j => Or.inl rfl) c hc pc hpc hwc
    · intro c hc pc hpc hwc
      refine ⟨signal_process_waiting_untouched (fuel + 1 + 1 + 1) processes pid sig c pc
        hpc hwc, ?_⟩
      intro g hg pg hpg hwg
      rw [hunf]
      exact signal_children_fold_nested fuel sig processes p.children processes
        (fun j => Or.inl rfl) c hc pc hpc hwc g hg pg hpg hwg

theorem signal_process_routing_witness :
    ((WasiProcess.signal_process 4 planeThree 2 9).lookup 2
        = some (WasiProcess.signalAllThreads procOneMain 9)) ∧
    (WasiProcess.signal_process 4 planeThree 1 9
        = procParentW3.children.foldl
            (fun acc c => WasiProcess.signal_process 3 acc c 9) planeThree) ∧
    (WasiProcess.signal_process 3 planeThree 3 9 = planeThree) ∧
    ((WasiProcess.signal_process 4 planeThree 1 9).lookup 1 = some procParentW3) ∧
    ((WasiProcess.signal_process 4 planeThree 1 9).lookup 2
        = some (WasiProcess.signalAllThreads procOneMain 9)) ∧
    ((WasiProcess.signal_process 4 planeThree 1 9).lookup 4 = some procMidWaiting) ∧
    ((WasiProcess.signal_process 4 planeThree 1 9).lookup 5
        = some (WasiProcess.signalAllThreads procOneMain 9)) := by
  have hp1 : planeThree.lookup 1 = some procParentW3 := by decide
  have hp2 : planeThree.lookup 2 = some procOneMain := by decide
  have hp4 : planeThree.lookup 4 = some procMidWaiting := by decide
  have hp5 : planeThree.lookup 5 = some procOneMain := by decide
  refine ⟨?_, ?_, ?_, ?_, ?_, ?_, ?_⟩
  · exact ((signal_process_routing 1 planeThree 2 procOneMain 9 hp2).1 rfl).1
  · exact ((signal_process_routing 1 planeThree 1 procParentW3 9 hp1).2 (by decide)).1
  · exact ((signal_process_routing 1 planeThree 1 procParentW3 9 hp1).2
      (by decide)).2.1 planeThree 3 (by decide)
  · exact ((signal_process_routing 1 planeThree 1 procParentW3 9 hp1).2
      (by decide)).2.2.1
  · exact ((signal_process_routing 1 planeThree 1 procParentW3 9 hp1).2
      (by decide)).2.2.2.1 2 (by decide) procOneMain hp2 rfl
  · exact (((signal_process_routing 1 planeThree 1 procParentW3 9 hp1).2
      (by decide)).2.2.2.2 4 (by decide) procMidWaiting hp4 (by decide)).1
  · exact (((signal_process_routing 1 planeThree 1 procParentW3 9 hp1).2
      (by decide)).2.2.2.2 4 (by decide) procMidWaiting hp4 (by decide)).2
      5 (by decide) procOneMain hp5 rfl
